import Mathlib

/-!
Verification of the recurrent DQN training/inference core (`dqn.cpp` / `dqn.hpp`).

This file gives a shallow embedding of the parts of the program the claims
are about, and settles each claim against the embedding:

* the episodic replay memory with capacity eviction (`DQN::RememberEpisode`),
* the replay-memory binary persistence (`DQN::SnapshotReplayMemory`,
  `DQN::LoadReplayMemory`),
* checkpoint discovery (`FindLatestSnapshot`),
* epsilon-greedy batched action selection (`DQN::SelectActions`,
  `DQN::SelectActionGreedily`),
* the target computation of the two training algorithms
  (`DQN::UpdateSequential`, `DQN::UpdateRandom`),
* the continuation-flag staging buffer of `DQN::UpdateSequential`,
* the start-offset computation of `DQN::UpdateRandom`,
* the frame preprocessor (`PreprocessScreen`).

Modelling conventions: C++ `double`/`float` values are modelled by exact
rationals (`ℚ`); machine integers by `Nat`/`Int` (the quantities involved
stay far from any overflow boundary); the external caffe engine
(`SelectActionGreedily`'s forward pass, the solver) is an oracle parameter;
the byte stream written by the replay-memory persistence is modelled as a
stream of typed tokens, one per `write`/`read` call of the source.
-/

namespace DqnSpec

/-- Size of a preprocessed frame: `kCroppedFrameSize * kCroppedFrameSize`
(`dqn.hpp`). -/
def kCroppedFrameDataSize : Nat := 84 * 84

/-- A preprocessed frame: the byte payload of `FrameData`
(`std::array<uint8_t, kCroppedFrameDataSize>`).  Modelled as a byte list;
the fixed length 7056 is not needed by any claim. -/
def Frame : Type := List Nat

instance : DecidableEq Frame := by
  unfold Frame
  infer_instance

/-- The zero-initialized frame produced by `std::make_shared<FrameData>()`. -/
def zeroFrame : Frame := List.replicate kCroppedFrameDataSize 0

/-- One transition of an episode:
`std::tuple<FrameDataSp, Action, float, boost::optional<FrameDataSp>>`
(`dqn.hpp`).  The action enum is stored as an integer, the reward as a
`float` (modelled by `ℚ`). -/
structure Transition where
  frame : Frame
  action : Int
  reward : ℚ
  next : Option Frame
deriving DecidableEq

/-- The default-constructed transition (`Episode::resize` value-initializes:
null frame modelled as the zero frame, action 0, reward 0, empty optional). -/
def defaultTransition : Transition :=
  { frame := zeroFrame, action := 0, reward := 0, next := none }

/-- An episode: `std::vector<Transition>` (`dqn.hpp`). -/
def Episode : Type := List Transition

instance : DecidableEq Episode := by
  unfold Episode
  infer_instance

/-- Total number of transitions in a list of episodes. -/
def sumLens (mem : List Episode) : Nat :=
  (mem.map List.length).sum

/-- The replay-memory state of `DQN`: the deque `replay_memory_`
(oldest episode first) together with the counter `replay_memory_size_`. -/
structure ReplayState where
  episodes : List Episode
  size : Nat
deriving DecidableEq

/-- The eviction loop of `DQN::RememberEpisode`:
`while (replay_memory_size_ >= replay_memory_capacity_) { replay_memory_size_ -=
replay_memory_.front().size(); replay_memory_.pop_front(); }`.
The recursion is on the episode list; the C++ loop can only run out of
episodes when the capacity is zero (the theorems assume `1 ≤ cap`). -/
def evictFront (cap : Nat) : List Episode → Nat → List Episode × Nat
  | [], size => ([], size)
  | e :: rest, size =>
    if cap ≤ size then evictFront cap rest (size - e.length)
    else (e :: rest, size)

/-- `DQN::RememberEpisode` (`dqn.cpp:717`): add the episode length to the
counter, push the episode at the back, then evict whole episodes from the
front while the counter is at least the capacity. -/
def RememberEpisode (cap : Nat) (st : ReplayState) (episode : Episode) :
    ReplayState :=
  let size := st.size + episode.length
  let mem := st.episodes ++ [episode]
  let p := evictFront cap mem size
  { episodes := p.1, size := p.2 }

/-- `DQN::ClearReplayMemory` (`dqn.cpp:1036`). -/
def ClearReplayMemory : ReplayState :=
  { episodes := [], size := 0 }

/-- Replay state after a whole sequence of `RememberEpisode` calls starting
from an empty memory. -/
def rememberAll (cap : Nat) (eps : List Episode) : ReplayState :=
  eps.foldl (RememberEpisode cap) ClearReplayMemory

/-! ### Checkpoint discovery (`FindLatestSnapshot`, `dqn.cpp:503`)

The directory scan (`FilesMatchingRegexp`, a file-system utility the spec
leaves external) yields the candidate `.solverstate` files in arbitrary
order; each is represented by its parsed iteration number
(`ParseIterFromSnapshot`).  The existence checks
`is_regular_file(caffemodel)` / `is_regular_file(replaymemory)` are
file-system oracles. -/

/-- The scanning loop of `FindLatestSnapshot`: `max_iter` starts at `-1`,
`latest` at the empty string (modelled `none`); a candidate updates the
result only when its iteration exceeds `max_iter` and both companion
artifacts exist. -/
def findLatestAux (hasCaffemodel hasReplaymemory : Nat → Bool) :
    List Nat → Int → Option Nat → Option Nat
  | [], _, latest => latest
  | f :: rest, maxIter, latest =>
    if maxIter < (f : Int) then
      if hasCaffemodel f && hasReplaymemory f then
        findLatestAux hasCaffemodel hasReplaymemory rest (f : Int) (some f)
      else
        findLatestAux hasCaffemodel hasReplaymemory rest maxIter latest
    else
      findLatestAux hasCaffemodel hasReplaymemory rest maxIter latest

/-- `FindLatestSnapshot` over the scanned candidate iterations:
returns the iteration of the returned `.solverstate` path, or `none` for
the empty-string sentinel. -/
def FindLatestSnapshot (files : List Nat) (hasCaffemodel hasReplaymemory : Nat → Bool) :
    Option Nat :=
  findLatestAux hasCaffemodel hasReplaymemory files (-1) none

/-- The specification of checkpoint discovery, in the spec's words: the
highest iteration among the candidates for which all three artifacts
exist (`.solverstate` existence is given by being a candidate), and the
"none found" sentinel when there is no complete candidate. -/
def specLatestComplete (files : List Nat) (hasCaffemodel hasReplaymemory : Nat → Bool) :
    Option Nat :=
  let complete := files.filter (fun n => hasCaffemodel n && hasReplaymemory n)
  if complete.isEmpty then none else some (complete.foldl Nat.max 0)

/-! ### Epsilon-greedy action selection (`DQN::SelectActions`,
`DQN::SelectActionGreedily`, `dqn.cpp:637-715`)

The evaluation engine's forward pass is modelled by an oracle
`q : Nat → Int → ℚ` giving the q-value blob entry
`q_values_blob->data_at(0, i, action, 0)` for batch item `i` and action
index `action`; the two RNG draws are oracle inputs (`draw` for the single
shared `uniform_real_distribution` coin flip, `randIdx` for the per-item
`uniform_int_distribution` index). -/

/-- The scan of `std::max_element` over the q-value vector
(`dqn.cpp:709-711`), viewed through the value function `f` of the
position: the running best position is replaced exactly when a strictly
greater value appears, so ties keep the earliest position. -/
def maxElemAux (f : Nat → ℚ) : Nat → Nat → Nat → Nat
  | 0, best, _ => best
  | k + 1, best, cur =>
    if f best < f cur then maxElemAux f k cur (cur + 1)
    else maxElemAux f k best (cur + 1)

/-- First position of the maximum among positions `0, …, len - 1`. -/
def maxElemIdx (f : Nat → ℚ) (len : Nat) : Nat :=
  maxElemAux f (len - 1) 0 1

/-- The greedy batch selection of `DQN::SelectActionGreedily`
(`dqn.cpp:668-715`): for each batch item build the q-value vector over the
legal-action list and pick the action (and value) at the first position of
the maximum. -/
def SelectActionGreedilyBatch (legal : List Int) (q : Nat → Int → ℚ)
    (batchSize : Nat) : List (Int × ℚ) :=
  (List.range batchSize).map (fun i =>
    let f : Nat → ℚ := fun j => q i (legal.getD j 0)
    let k := maxElemIdx f legal.length
    (legal.getD k 0, f k))

/-- Result of `DQN::SelectActions`, together with whether the evaluation
engine (`SelectActionGreedily` on the test net) was invoked. -/
structure SelectActionsResult where
  actions : List Int
  usedEngine : Bool
deriving DecidableEq

/-- `DQN::SelectActions` (`dqn.cpp:637`): one shared coin flip for the
whole batch; below `epsilon` every item gets a uniformly random legal
action and the engine is never called, otherwise every item gets its
greedy action. -/
def SelectActions (legal : List Int) (batchSize : Nat) (epsilon draw : ℚ)
    (randIdx : Nat → Nat) (q : Nat → Int → ℚ) : SelectActionsResult :=
  if draw < epsilon then
    { actions := (List.range batchSize).map (fun i => legal.getD (randIdx i) 0),
      usedEngine := false }
  else
    { actions := (SelectActionGreedilyBatch legal q batchSize).map Prod.fst,
      usedEngine := true }

/-! ### Replay-memory persistence (`DQN::SnapshotReplayMemory`,
`DQN::LoadReplayMemory`, `dqn.cpp:1041-1099`)

The gzip-compressed byte stream is modelled at the granularity of the
source's `write`/`read` calls: one token per call (an `int`, a frame
payload of `kCroppedFrameDataSize` bytes, or a `float`).  The C++ stream
performs no error handling: a `read` past the end of the stream leaves the
destination object at its previous (value-initialized) contents and sets
the stream's fail state, which `LoadReplayMemory` never inspects.  The
model mirrors this: each read returns the default value and a fail flag
on a truncated stream, and `LoadReplayMemory` carries the flag along
without acting on it. -/

/-- One persisted value, corresponding to one `out.write`/`in.read` call. -/
inductive Tok where
  | int (n : Int)
  | frame (f : Frame)
  | flt (r : ℚ)
deriving DecidableEq

/-- `DQN::SnapshotReplayMemory` (`dqn.cpp:1041`): episode count, then each
episode's transition count, then for every transition in episode order the
frame bytes, the action index, and the reward.  The optional next-frame is
not written. -/
def SnapshotReplayMemory (mem : List Episode) : List Tok :=
  Tok.int mem.length ::
    (mem.map (fun ep => Tok.int ep.length) ++
      mem.bind (fun ep => ep.bind (fun t =>
        [Tok.frame t.frame, Tok.int t.action, Tok.flt t.reward])))

/-- Read one `int` from the stream; on a truncated (or jammed) stream the
destination keeps its prior zero value and the fail state is set. -/
def readInt : List Tok → Int × List Tok × Bool
  | Tok.int n :: rest => (n, rest, false)
  | _ => (0, [], true)

/-- Read one frame payload; `std::make_shared<FrameData>()` value-initializes
the buffer, so a failed read leaves the zero frame. -/
def readFrame : List Tok → Frame × List Tok × Bool
  | Tok.frame f :: rest => (f, rest, false)
  | _ => (zeroFrame, [], true)

/-- Read one `float`; the value-initialized destination stays `0` on a
failed read. -/
def readFloat : List Tok → ℚ × List Tok × Bool
  | Tok.flt r :: rest => (r, rest, false)
  | _ => (0, [], true)

/-- The episode-length loop of `DQN::LoadReplayMemory` (`dqn.cpp:1077-1082`),
which also accumulates `replay_memory_size_`. -/
def readLengths : Nat → List Tok → List Nat × List Tok × Bool
  | 0, s => ([], s, false)
  | n + 1, s =>
    let p := readInt s
    let q := readLengths n p.2.1
    (p.1.toNat :: q.1, q.2.1, p.2.2 || q.2.2)

/-- The per-transition reads of `DQN::LoadReplayMemory` (`dqn.cpp:1085-1095`)
for one episode: frame bytes, action, reward, in that order. -/
def readTriples : Nat → List Tok → List (Frame × Int × ℚ) × List Tok × Bool
  | 0, s => ([], s, false)
  | n + 1, s =>
    let pf := readFrame s
    let pa := readInt pf.2.1
    let pr := readFloat pa.2.1
    let q := readTriples n pr.2.1
    ((pf.1, pa.1, pr.1) :: q.1, q.2.1, pf.2.2 || pa.2.2 || pr.2.2 || q.2.2)

/-- The next-frame back-link wiring of `DQN::LoadReplayMemory`: reading
transition `j`'s frame assigns it as transition `j-1`'s next-frame
(`std::get<3>(ep[j-1]) = frame` for `j > 0`); the final transition's
next-frame keeps its default-constructed empty optional. -/
def wireNext : List (Frame × Int × ℚ) → List Transition
  | [] => []
  | (f, a, r) :: rest =>
    { frame := f, action := a, reward := r,
      next := match rest with
              | [] => none
              | (f2, _, _) :: _ => some f2 } :: wireNext rest

/-- The episode loop of `DQN::LoadReplayMemory`: one episode per recorded
length. -/
def readEpisodes : List Nat → List Tok → List Episode × List Tok × Bool
  | [], s => ([], s, false)
  | len :: rest, s =>
    let p := readTriples len s
    let q := readEpisodes rest p.2.1
    (wireNext p.1 :: q.1, q.2.1, p.2.2 || q.2.2)

/-- Outcome of `DQN::LoadReplayMemory`: the reconstructed memory and
counter, together with the stream's final fail state.  The C++ function
returns `void` and never inspects the stream state, so the fail flag is
recorded but has no influence on the reconstruction. -/
structure LoadResult where
  episodes : List Episode
  size : Nat
  failed : Bool
deriving DecidableEq

/-- `DQN::LoadReplayMemory` (`dqn.cpp:1066`): clear the memory, read the
episode count, the lengths (accumulating the counter), then the
transitions; no stream-state check anywhere. -/
def LoadReplayMemory (s : List Tok) : LoadResult :=
  let p1 := readInt s
  let p2 := readLengths p1.1.toNat p1.2.1
  let p3 := readEpisodes p2.1 p2.2.1
  { episodes := p3.1, size := p2.1.sum, failed := p1.2.2 || p2.2.2 || p3.2.2 }

/-- The adjacency rule the spec states for the reconstructed next-frame
links, written from the spec's words: the final (terminal) transition has
no next-frame, and every other transition's next-frame is the following
transition's current frame. -/
def specAdjacentNextLinks : List Frame → List (Option Frame)
  | [] => []
  | [_] => [none]
  | _ :: f2 :: rest => some f2 :: specAdjacentNextLinks (f2 :: rest)

/-- A small concrete replay memory used by witnesses: one episode of two
transitions (the second terminal). -/
def sampleMemory : List Episode :=
  [[{ frame := [1, 2], action := 3, reward := 1/2, next := some [9] },
    { frame := [9], action := 0, reward := -1, next := none }]]

/-! ### Start-offset computation of `DQN::UpdateRandom`
(`dqn.cpp:919-925`) -/

/-- `last_valid_frame` of `DQN::UpdateRandom` (`dqn.cpp:922`): the upper
bound handed to `uniform_int_distribution<int>(0, last_valid_frame)`,
computed in signed arithmetic exactly as the source writes it:
`ep_size - 1 - (frames_per_timestep_ - 1) - (unroll_ - 1)`. -/
def lastValidFrame (epSize fpt unroll : Nat) : Int :=
  (epSize : Int) - 1 - ((fpt : Int) - 1) - ((unroll : Int) - 1)

/-- The start-offset selection loop of `DQN::UpdateRandom`
(`dqn.cpp:919-925`): every selected episode's start offset is drawn by
the sampler oracle from the computed bound, unconditionally — the source
has no length validation and no alternative path. -/
def updateRandomEpStarts (epSizes : List Nat) (fpt unroll : Nat)
    (draw : Int → Int) : List Int :=
  epSizes.map (fun s => draw (lastValidFrame s fpt unroll))

/-! ### Frame preprocessing (`PreprocessScreen`, `dqn.cpp:89-140`)

C++ `double` arithmetic is modelled by exact rationals; every truncating
`double`-to-integer conversion of the source is modelled by `⌊·⌋`
(the values involved are non-negative and in range, where C++ truncation
toward zero coincides with the floor).  The raw screen is a pixel oracle
`rawPixel x y` standing for `raw_pixels[y * raw_screen_width + x]`. -/

/-- The `ntsc_to_rgb` palette array of `PixelToRGB` (`dqn.cpp:32-65`),
all 256 entries in order (the odd entries are the source's zero
fillers). -/
def ntscToRgbTable : List Nat := [
    0x000000, 0, 0x4a4a4a, 0, 0x6f6f6f, 0, 0x8e8e8e, 0,
    0xaaaaaa, 0, 0xc0c0c0, 0, 0xd6d6d6, 0, 0xececec, 0,
    0x484800, 0, 0x69690f, 0, 0x86861d, 0, 0xa2a22a, 0,
    0xbbbb35, 0, 0xd2d240, 0, 0xe8e84a, 0, 0xfcfc54, 0,
    0x7c2c00, 0, 0x904811, 0, 0xa26221, 0, 0xb47a30, 0,
    0xc3903d, 0, 0xd2a44a, 0, 0xdfb755, 0, 0xecc860, 0,
    0x901c00, 0, 0xa33915, 0, 0xb55328, 0, 0xc66c3a, 0,
    0xd5824a, 0, 0xe39759, 0, 0xf0aa67, 0, 0xfcbc74, 0,
    0x940000, 0, 0xa71a1a, 0, 0xb83232, 0, 0xc84848, 0,
    0xd65c5c, 0, 0xe46f6f, 0, 0xf08080, 0, 0xfc9090, 0,
    0x840064, 0, 0x97197a, 0, 0xa8308f, 0, 0xb846a2, 0,
    0xc659b3, 0, 0xd46cc3, 0, 0xe07cd2, 0, 0xec8ce0, 0,
    0x500084, 0, 0x68199a, 0, 0x7d30ad, 0, 0x9246c0, 0,
    0xa459d0, 0, 0xb56ce0, 0, 0xc57cee, 0, 0xd48cfc, 0,
    0x140090, 0, 0x331aa3, 0, 0x4e32b5, 0, 0x6848c6, 0,
    0x7f5cd5, 0, 0x956fe3, 0, 0xa980f0, 0, 0xbc90fc, 0,
    0x000094, 0, 0x181aa7, 0, 0x2d32b8, 0, 0x4248c8, 0,
    0x545cd6, 0, 0x656fe4, 0, 0x7580f0, 0, 0x8490fc, 0,
    0x001c88, 0, 0x183b9d, 0, 0x2d57b0, 0, 0x4272c2, 0,
    0x548ad2, 0, 0x65a0e1, 0, 0x75b5ef, 0, 0x84c8fc, 0,
    0x003064, 0, 0x185080, 0, 0x2d6d98, 0, 0x4288b0, 0,
    0x54a0c5, 0, 0x65b7d9, 0, 0x75cceb, 0, 0x84e0fc, 0,
    0x004030, 0, 0x18624e, 0, 0x2d8169, 0, 0x429e82, 0,
    0x54b899, 0, 0x65d1ae, 0, 0x75e7c2, 0, 0x84fcd4, 0,
    0x004400, 0, 0x1a661a, 0, 0x328432, 0, 0x48a048, 0,
    0x5cba5c, 0, 0x6fd26f, 0, 0x80e880, 0, 0x90fc90, 0,
    0x143c00, 0, 0x355f18, 0, 0x527e2d, 0, 0x6e9c42, 0,
    0x87b754, 0, 0x9ed065, 0, 0xb4e775, 0, 0xc8fc84, 0,
    0x303800, 0, 0x505916, 0, 0x6d762b, 0, 0x88923e, 0,
    0xa0ab4f, 0, 0xb7c25f, 0, 0xccd86e, 0, 0xe0ec7c, 0,
    0x482c00, 0, 0x694d14, 0, 0x866a26, 0, 0xa28638, 0,
    0xbb9f47, 0, 0xd2b656, 0, 0xe8cc63, 0, 0xfce070, 0]

/-- `PixelToRGB` (`dqn.cpp:31`): palette lookup, then
`r = rgb >> 16`, `g = (rgb >> 8) & 0xFF`, `b = rgb & 0xFF`. -/
def PixelToRGB (pixel : Nat) : Nat × Nat × Nat :=
  let rgb := ntscToRgbTable.getD pixel 0
  (rgb / 65536, (rgb / 256) % 256, rgb % 256)

/-- `RGBToGrayscale` (`dqn.cpp:77`): luminosity weighting
`r * 0.21 + g * 0.72 + b * 0.07`, truncated into the returned
`uint8_t`. -/
def RGBToGrayscale (rgb : Nat × Nat × Nat) : Nat :=
  (⌊(rgb.1 : ℚ) * (21/100) + (rgb.2.1 : ℚ) * (72/100) + (rgb.2.2 : ℚ) * (7/100)⌋).toNat

/-- `PixelToGrayscale` (`dqn.cpp:85`). -/
def PixelToGrayscale (pixel : Nat) : Nat :=
  RGBToGrayscale (PixelToRGB pixel)

/-- One destination pixel `(i, j)` of `PreprocessScreen` (`dqn.cpp:103-137`)
on a `w × h` raw screen.  The accumulator `resulting_color` is declared
`uint8_t` in the source, so every `+=` of a weighted `double` contribution
converts the running sum back to an 8-bit integer, truncating the
fractional part — the model applies `⌊·⌋` after each addition exactly as
the source does. -/
def PreprocessPixel (rawPixel : Nat → Nat → Nat) (w h i j : Nat) : Nat :=
  let croppedH : Nat := (⌊(85 : ℚ)/100 * (h : ℚ)⌋).toNat
  let startY := h - croppedH
  let startX := 8
  let croppedW := w - startX
  let xScale : ℚ := (croppedW : ℚ) / 84
  let yScale : ℚ := (croppedH : ℚ) / 84
  let firstX := startX + (⌊(j : ℚ) * xScale⌋).toNat
  let lastX := startX + (⌊((j : ℚ) + 1) * xScale⌋).toNat
  let firstY := startY + (⌊(i : ℚ) * yScale⌋).toNat
  let lastY := startY + (⌊((i : ℚ) + 1) * yScale⌋).toNat
  (List.range (lastX + 1 - firstX)).foldl (fun acc dx =>
    let x := firstX + dx
    let xWeight : ℚ :=
      if x = firstX then (x : ℚ) + 1 - (j : ℚ) * xScale - (startX : ℚ)
      else if x = lastX then xScale * ((j : ℚ) + 1) - (x : ℚ) + (startX : ℚ)
      else 1
    (List.range (lastY + 1 - firstY)).foldl (fun acc2 dy =>
      let y := firstY + dy
      let yWeight : ℚ :=
        if y = firstY then (y : ℚ) + 1 - (i : ℚ) * yScale - (startY : ℚ)
        else if y = lastY then yScale * ((i : ℚ) + 1) - (y : ℚ) + (startY : ℚ)
        else 1
      let gray := PixelToGrayscale (rawPixel x y)
      (⌊(acc2 : ℚ) + (xWeight / xScale) * (yWeight / yScale) * (gray : ℚ)⌋).toNat)
      acc)
    0

/-- `PreprocessScreen` (`dqn.cpp:89`): the full 84 × 84 output grid. -/
def PreprocessScreen (rawPixel : Nat → Nat → Nat) (w h : Nat) :
    List (List Nat) :=
  (List.range 84).map (fun i =>
    (List.range 84).map (fun j => PreprocessPixel rawPixel w h i j))

/-! ### Target computation of the training updates
(`DQN::UpdateSequential`, `dqn.cpp:726-852`; `DQN::UpdateRandom`,
`dqn.cpp:892-985`)

The batched forward pass of the target-clone
(`SelectActionGreedily(*clone_net_, past_frames_vec, cont)`) is modelled
by an oracle `evalBatch : List (List Frame) → List ℚ` returning, for the
list of next-state windows handed to it, the per-window maximum Q-values
(`actions_and_values[k].second`).  The filling loops read these values
back through the running index `target_value_idx`, incremented only at
non-terminal slots; the theorems make that pairing explicit.  Where the
source indexes containers under a bounds `CHECK`, the model totalizes
with the default value. -/

/-- `episode[ts]` under the source's bounds checks, totalized with the
default-constructed transition. -/
def transAt (ep : Episode) (ts : Nat) : Transition :=
  ep.getD ts defaultTransition

/-- The shared target rule (`dqn.cpp:806-808` and `dqn.cpp:955-957`):
`reward + gamma * q` when the transition's optional next-frame is present
(non-terminal), plain `reward` when it is absent (terminal). -/
def targetFor (gamma : ℚ) (tr : Transition) (q : ℚ) : ℚ :=
  if tr.next.isSome then tr.reward + gamma * q else tr.reward

/-- Whether `UpdateRandom` includes an episode slot (episode together with
its drawn start offset) in the batched clone evaluation at unroll
position `u`: the transition at the window's last time-step
`ep_starts[n] + u + (frames_per_timestep_ - 1)` is non-terminal
(`dqn.cpp:930-932`). -/
def randPresent (u fpt : Nat) (p : Episode × Nat) : Bool :=
  (transAt p.1 (p.2 + u + (fpt - 1))).next.isSome

/-- The next-state window `UpdateRandom` gathers for one slot at unroll
position `u` (`dqn.cpp:933-937`): the next-frames at
`ep_starts[n] + u + i` for `i < frames_per_timestep_`.  The source
dereferences the optionals unchecked (only the last is tested); the model
totalizes the dereference with the zero frame. -/
def randNextWindow (ep : Episode) (st u fpt : Nat) : List Frame :=
  (List.range fpt).map (fun i => ((transAt ep (st + u + i)).next).getD zeroFrame)

/-- The list of next-state windows handed to the clone evaluation at
unroll position `u` of `UpdateRandom` (`dqn.cpp:927-940`), in slot
order, one entry per non-terminal slot. -/
def randCollectWindows (u fpt : Nat) (pairs : List (Episode × Nat)) :
    List (List Frame) :=
  pairs.filterMap (fun p =>
    if randPresent u fpt p then some (randNextWindow p.1 p.2 u fpt) else none)

/-- The target-filling loop of `UpdateRandom` at unroll position `u`
(`dqn.cpp:944-966`): the slots are walked in order and each non-terminal
slot consumes the next unconsumed clone Q-value
(`actions_and_values[target_value_idx++].second`); the source's
out-of-bounds access when the values run out (guarded by its final
`CHECK_EQ`) is totalized with `0`. -/
def randFillTargets (gamma : ℚ) (u fpt : Nat) :
    List (Episode × Nat) → List ℚ → List ℚ
  | [], _ => []
  | p :: rest, vals =>
    if randPresent u fpt p then
      ((transAt p.1 (p.2 + u + (fpt - 1))).reward + gamma * vals.headD 0)
        :: randFillTargets gamma u fpt rest vals.tail
    else
      (transAt p.1 (p.2 + u + (fpt - 1))).reward
        :: randFillTargets gamma u fpt rest vals

/-- The whole target computation of `UpdateRandom` at unroll position
`u`: one batched clone evaluation over the collected next-state windows,
then the filling loop. -/
def updateRandomStepTargets (gamma : ℚ) (u fpt : Nat)
    (pairs : List (Episode × Nat))
    (evalBatch : List (List Frame) → List ℚ) : List ℚ :=
  randFillTargets gamma u fpt pairs (evalBatch (randCollectWindows u fpt pairs))

/-- One step of the per-slot frame-history deque maintenance of
`DQN::UpdateSequential` at time `t` (`dqn.cpp:765-777`): if the episode
has a non-terminal transition at `t`, its next-frame is pushed at the
back and the deque trimmed from the front to the last
`frames_per_timestep_` entries; otherwise the deque is cleared. -/
def stepDeque (fpt : Nat) (ep : Episode) (t : Nat) (dq : List Frame) :
    List Frame :=
  match ep.get? t with
  | some tr =>
    match tr.next with
    | some f => (dq ++ [f]).drop ((dq ++ [f]).length - fpt)
    | none => []
  | none => []

/-- Whether the target-filling loop of `UpdateSequential` consumes a
clone Q-value for an episode at time `t` (`dqn.cpp:800-808`): the episode
still has a transition at `t` and it is non-terminal. -/
def seqConsumes (t : Nat) (ep : Episode) : Bool :=
  match ep.get? t with
  | some tr => tr.next.isSome
  | none => false

/-- Whether `UpdateSequential` includes an episode slot (episode together
with its deque state before the step) in the batched clone evaluation at
time `t`: its deque is non-empty after the maintenance step
(`dqn.cpp:786`). -/
def seqPresent (fpt t : Nat) (p : Episode × List Frame) : Bool :=
  !(stepDeque fpt p.1 t p.2).isEmpty

/-- The windows handed to the clone evaluation at time `t` of
`UpdateSequential` (`dqn.cpp:783-793`): the non-empty deques in slot
order. -/
def seqCollectWindows (fpt t : Nat) (pairs : List (Episode × List Frame)) :
    List (List Frame) :=
  pairs.filterMap (fun p =>
    if seqPresent fpt t p then some (stepDeque fpt p.1 t p.2) else none)

/-- The target-filling loop of `UpdateSequential` at time `t`
(`dqn.cpp:797-823`): slots whose episode is exhausted (`t ≥ size`) write
nothing (`none`); non-terminal slots consume the next unconsumed clone
Q-value. -/
def seqFillTargets (gamma : ℚ) (t : Nat) :
    List Episode → List ℚ → List (Option ℚ)
  | [], _ => []
  | ep :: rest, vals =>
    match ep.get? t with
    | some tr =>
      if tr.next.isSome then
        some (tr.reward + gamma * vals.headD 0)
          :: seqFillTargets gamma t rest vals.tail
      else
        some tr.reward :: seqFillTargets gamma t rest vals
    | none => none :: seqFillTargets gamma t rest vals

/-- The whole target computation of `UpdateSequential` at time `t` of a
cycle: the deques are advanced, the non-empty ones are batched through
the clone evaluation, and the filling loop assigns targets per slot. -/
def updateSequentialStepTargets (gamma : ℚ) (fpt t : Nat)
    (pairs : List (Episode × List Frame))
    (evalBatch : List (List Frame) → List ℚ) : List (Option ℚ) :=
  seqFillTargets gamma t (pairs.map Prod.fst)
    (evalBatch (seqCollectWindows fpt t pairs))

/-- Default slot value for `UpdateRandom` lookups. -/
def pairDefaultR : Episode × Nat := ([], 0)

/-- Default slot value for `UpdateSequential` lookups. -/
def pairDefaultS : Episode × List Frame := ([], [])

/-- A small concrete episode for witnesses: one non-terminal transition
followed by a terminal one. -/
def wEpisode : Episode :=
  [{ frame := [1], action := 0, reward := 1/2, next := some [2] },
   { frame := [2], action := 1, reward := 1, next := none }]

/-- A concrete evaluation oracle for witnesses: every window evaluates
to `2`. -/
def wEval : List (List Frame) → List ℚ := fun ws => ws.map (fun _ => 2)

/-! ### Continuation-flag staging of `DQN::UpdateSequential`
(`dqn.cpp:751-825`)

The `cont_input_` staging buffer has shape `unroll × minibatch`, laid out
row-major (`cont_blob->offset(i, n, 0, 0) = i * minibatch + n`).  It is a
member vector shared with `SelectActionGreedily`, which the unroll loop
calls on the clone net at `dqn.cpp:794-795`: whenever its window batch is
non-empty, that call overwrites the *whole* buffer with its `cont`
argument — `std::fill(cont_input_.begin(), cont_input_.end(), cont)` at
`dqn.cpp:681`, with `cont = (t > 0)` — before the buffer finally reaches
`InputDataIntoLayers` for the training net at `dqn.cpp:825`.  (When the
batch is empty, `SelectActionGreedily` returns at `dqn.cpp:673-675`
before its fills.) -/

/-- The cont-relevant writes of one unroll-loop pass of
`DQN::UpdateSequential` (`dqn.cpp:761-823`), walked over the pass's step
times `t`: the history deques advance every step (`dqn.cpp:765-777`);
when the step is past the history warm-up (`t ≥ frames_per_timestep_`,
the `continue` at `dqn.cpp:779-781`) and at least one deque is non-empty,
the clone evaluation runs and — staging into the same shared member
buffer — overwrites all of `cont_input_` with `t > 0` (`dqn.cpp:681`);
otherwise the buffer is left unchanged. -/
def seqContPassAux (fpt : Nat) (eps : List Episode) :
    List Nat → List (List Frame) → List ℚ → List ℚ
  | [], _, cont => cont
  | t :: ts, dqs, cont =>
    let dqs2 := List.zipWith (fun ep dq => stepDeque fpt ep t dq) eps dqs
    let cont2 :=
      if fpt ≤ t ∧ dqs2.any (fun d => !d.isEmpty) then
        List.replicate cont.length (if 0 < t then (1 : ℚ) else 0)
      else cont
    seqContPassAux fpt eps ts dqs2 cont2

/-- The `cont_input_` buffer exactly as `InputDataIntoLayers` receives it
for the training step at `dqn.cpp:825`, for one outer-loop pass of
`DQN::UpdateSequential` whose first step is `tBase`, over the selected
episodes `eps` with incoming deque states `dqs`: the cycle-top zero-fill
(`dqn.cpp:755`) and the `t = 0` first-row zeroing (`dqn.cpp:756-760`),
then every overwrite performed by the pass's clone evaluations
(`seqContPassAux`). -/
def seqContInputAtTrainStep (fpt unroll mb : Nat) (tBase : Nat)
    (eps : List Episode) (dqs : List (List Frame)) : List ℚ :=
  let c := List.replicate (unroll * mb) (0 : ℚ)
  let c2 := if tBase = 0 then
      (List.range mb).foldl (fun acc n => acc.set (0 * mb + n) 0) c
    else c
  seqContPassAux fpt eps ((List.range unroll).map (fun i => tBase + i)) dqs c2

/-- Modelled from the spec: the continuation flag the specification
prescribes for the training data of `UpdateSequential` — `0` (false) only
at global time-step `0` of an episode-window cycle, `1` (true) at every
subsequent step.  Unroll position `i` of a cycle whose base step is `t`
is global time-step `t + i`. -/
def specSeqContFlag (t i : Nat) : ℚ := if t + i = 0 then 0 else 1

/-- A three-transition episode (two non-terminal, then terminal) for the
C2 divergence instance. -/
def wEpisode3 : Episode :=
  [{ frame := [1], action := 0, reward := 1/2, next := some [2] },
   { frame := [2], action := 1, reward := 1/2, next := some [3] },
   { frame := [3], action := 1, reward := 1, next := none }]

end DqnSpec

namespace DqnSpec

theorem evictFront_spec (cap : Nat) :
    ∀ (mem : List Episode) (size : Nat), size = sumLens mem →
      (evictFront cap mem size).2 = sumLens (evictFront cap mem size).1 ∧
      ((evictFront cap mem size).2 < cap ∨ (evictFront cap mem size).1 = []) := by
  intro mem
  induction mem with
  | nil =>
    intro size h
    simp [evictFront, h]
  | cons e rest ih =>
    intro size h
    by_cases hc : cap ≤ size
    · have hrest : size - e.length = sumLens rest := by
        simp [sumLens] at h ⊢
        omega
      simpa [evictFront, hc] using ih (size - e.length) hrest
    · constructor
      · simpa [evictFront, hc] using h
      · left
        simp [evictFront, hc]
        omega

theorem RememberEpisode_invariant (cap : Nat) (hcap : 1 ≤ cap)
    (st : ReplayState) (e : Episode)
    (h : st.size = sumLens st.episodes) :
    (RememberEpisode cap st e).size = sumLens (RememberEpisode cap st e).episodes ∧
    (RememberEpisode cap st e).size < cap := by
  have hpre : st.size + e.length = sumLens (st.episodes ++ [e]) := by
    simp [sumLens, h]
  have hspec := evictFront_spec cap (st.episodes ++ [e]) (st.size + e.length) hpre
  refine ⟨hspec.1, ?_⟩
  rcases hspec.2 with hlt | hempty
  · exact hlt
  · have : (evictFront cap (st.episodes ++ [e]) (st.size + e.length)).2 = 0 := by
      have := hspec.1
      rw [hempty] at this
      simpa [sumLens] using this
    simp only [RememberEpisode]
    omega

theorem rememberAll_invariant (cap : Nat) (hcap : 1 ≤ cap)
    (eps : List Episode) :
    (rememberAll cap eps).size = sumLens (rememberAll cap eps).episodes ∧
    (rememberAll cap eps).size < cap := by
  suffices h : ∀ (st : ReplayState),
      st.size = sumLens st.episodes → st.size < cap →
      (eps.foldl (RememberEpisode cap) st).size =
        sumLens (eps.foldl (RememberEpisode cap) st).episodes ∧
      (eps.foldl (RememberEpisode cap) st).size < cap by
    exact h ClearReplayMemory (by simp [ClearReplayMemory, sumLens]) (by simpa [ClearReplayMemory])
  induction eps with
  | nil =>
    intro st h1 h2
    exact ⟨h1, h2⟩
  | cons e rest ih =>
    intro st h1 h2
    have step := RememberEpisode_invariant cap hcap st e h1
    exact ih (RememberEpisode cap st e) step.1 step.2

/-- C1.  For every capacity `C ≥ 1` and every sequence of `RememberEpisode`
calls (starting from the empty memory), after each call the stored
transition counter equals the exact sum of the lengths of the currently
stored episodes and never exceeds `C`.  The statement is quantified over
all call sequences, so it covers the state after every intermediate call
(every prefix is itself a sequence). -/
theorem replay_capacity_invariant (cap : Nat) (eps : List Episode)
    (hcap : 1 ≤ cap) :
    (rememberAll cap eps).size = sumLens (rememberAll cap eps).episodes ∧
    (rememberAll cap eps).size ≤ cap := by
  have h := rememberAll_invariant cap hcap eps
  exact ⟨h.1, Nat.le_of_lt h.2⟩

/-- Witness for C1 at the spec's own end-to-end scenario: capacity 10,
three episodes of length 4 — after the third append the first episode is
evicted, 8 transitions remain, and the counter matches. -/
theorem replay_capacity_invariant_witness :
    (1 ≤ 10 ∧
      (rememberAll 10 [List.replicate 4 defaultTransition,
        List.replicate 4 defaultTransition,
        List.replicate 4 defaultTransition]).size =
        sumLens (rememberAll 10 [List.replicate 4 defaultTransition,
          List.replicate 4 defaultTransition,
          List.replicate 4 defaultTransition]).episodes ∧
      (rememberAll 10 [List.replicate 4 defaultTransition,
        List.replicate 4 defaultTransition,
        List.replicate 4 defaultTransition]).size ≤ 10) ∧
    (rememberAll 10 [List.replicate 4 defaultTransition,
      List.replicate 4 defaultTransition,
      List.replicate 4 defaultTransition]).size = 8 :=
  ⟨⟨by decide,
    (replay_capacity_invariant 10 [List.replicate 4 defaultTransition,
      List.replicate 4 defaultTransition,
      List.replicate 4 defaultTransition] (by decide)).1,
    (replay_capacity_invariant 10 [List.replicate 4 defaultTransition,
      List.replicate 4 defaultTransition,
      List.replicate 4 defaultTransition] (by decide)).2⟩,
   by decide⟩

theorem findLatestAux_some (hc hr : Nat → Bool) :
    ∀ (files : List Nat) (v : Nat),
      findLatestAux hc hr files (v : Int) (some v) =
        some ((files.filter (fun n => hc n && hr n)).foldl Nat.max v) := by
  intro files
  induction files with
  | nil => intro v; simp [findLatestAux]
  | cons f rest ih =>
    intro v
    by_cases hcompl : (hc f && hr f) = true
    · by_cases hlt : (v : Int) < (f : Int)
      · have hvf : v ≤ f := by exact_mod_cast le_of_lt hlt
        have hmax : Nat.max v f = f := Nat.max_eq_right hvf
        simp [findLatestAux, hlt, hcompl, ih, hmax]
      · have hfv : f ≤ v := by
          have := not_lt.mp hlt
          exact_mod_cast this
        have hmax : Nat.max v f = v := Nat.max_eq_left hfv
        simp [findLatestAux, hlt, hcompl, ih, hmax]
    · by_cases hlt : (v : Int) < (f : Int) <;>
        simp [findLatestAux, hlt, hcompl, ih]

theorem findLatestAux_none (hc hr : Nat → Bool) :
    ∀ (files : List Nat),
      findLatestAux hc hr files (-1) none = specLatestComplete files hc hr := by
  intro files
  induction files with
  | nil => simp [findLatestAux, specLatestComplete]
  | cons f rest ih =>
    have hlt : (-1 : Int) < (f : Int) := by omega
    by_cases hcompl : (hc f && hr f) = true
    · have h0 : Nat.max 0 f = f := Nat.max_eq_right (Nat.zero_le f)
      simp [findLatestAux, hlt, hcompl, findLatestAux_some, specLatestComplete, h0]
    · simp [findLatestAux, hlt, hcompl, ih, specLatestComplete]

/-- C5.  `FindLatestSnapshot` returns exactly the highest candidate
iteration for which both companion artifacts (`.caffemodel`,
`.replaymemory`) exist alongside the scanned `.solverstate`, and the
"none found" sentinel when no candidate is complete — for every scan
order and every file-system state.  In particular, with a complete set at
iteration 10 and a set at iteration 20 missing the replay-memory
artifact, it returns the iteration-10 snapshot (in either scan order). -/
theorem findLatestSnapshot_correct :
    (∀ (files : List Nat) (hasCaffemodel hasReplaymemory : Nat → Bool),
      FindLatestSnapshot files hasCaffemodel hasReplaymemory =
        specLatestComplete files hasCaffemodel hasReplaymemory) ∧
    FindLatestSnapshot [10, 20] (fun _ => true) (fun n => n == 10) = some 10 ∧
    FindLatestSnapshot [20, 10] (fun _ => true) (fun n => n == 10) = some 10 ∧
    FindLatestSnapshot [20] (fun _ => true) (fun n => n == 10) = none := by
  refine ⟨fun files hc hr => findLatestAux_none hc hr files, ?_, ?_, ?_⟩ <;> decide

theorem maxElemAux_spec (f : Nat → ℚ) :
    ∀ (k best cur : Nat), best < cur →
      (∀ j, j < cur → f j ≤ f best) →
      (∀ j, j < best → f j < f best) →
      maxElemAux f k best cur < cur + k ∧
      (∀ j, j < cur + k → f j ≤ f (maxElemAux f k best cur)) ∧
      (∀ j, j < maxElemAux f k best cur → f j < f (maxElemAux f k best cur)) := by
  intro k
  induction k with
  | zero =>
    intro best cur hbc hle hlt
    simpa [maxElemAux] using ⟨hbc, hle, hlt⟩
  | succ k ih =>
    intro best cur hbc hle hlt
    by_cases hcmp : f best < f cur
    · have step := ih cur (cur + 1) (Nat.lt_succ_self cur)
        (fun j hj => by
          rcases Nat.lt_succ_iff_lt_or_eq.mp hj with hj' | hj'
          · exact le_of_lt (lt_of_le_of_lt (hle j hj') hcmp)
          · subst hj'; exact le_refl _)
        (fun j hj => lt_of_le_of_lt (hle j hj) hcmp)
      have harith : cur + 1 + k = cur + (k + 1) := by omega
      rw [harith] at step
      simpa [maxElemAux, hcmp] using step
    · have step := ih best (cur + 1) (Nat.lt_succ_of_lt hbc)
        (fun j hj => by
          rcases Nat.lt_succ_iff_lt_or_eq.mp hj with hj' | hj'
          · exact hle j hj'
          · subst hj'; exact le_of_not_lt hcmp)
        hlt
      have harith : cur + 1 + k = cur + (k + 1) := by omega
      rw [harith] at step
      simpa [maxElemAux, hcmp] using step

theorem maxElemIdx_spec (f : Nat → ℚ) (len : Nat) (hlen : 1 ≤ len) :
    maxElemIdx f len < len ∧
    (∀ j, j < len → f j ≤ f (maxElemIdx f len)) ∧
    (∀ j, j < maxElemIdx f len → f j < f (maxElemIdx f len)) := by
  have h := maxElemAux_spec f (len - 1) 0 1 (Nat.zero_lt_one)
    (fun j hj => by interval_cases j; exact le_refl _)
    (fun j hj => by omega)
  have harith : 1 + (len - 1) = len := by omega
  rw [harith] at h
  simpa [maxElemIdx] using h

/-- C6.  With `epsilon = 1.0` the shared coin flip (a draw from
`uniform_real_distribution(0,1)`, always `< 1`) selects the random branch,
so `SelectActions` never calls the evaluation engine; with `epsilon = 0.0`
the draw (always `≥ 0`) selects the greedy branch, and each batch item
receives the legal action at the first position of the maximum q-value in
legal-action-list order: the chosen position carries the maximum value and
every strictly earlier position carries a strictly smaller value. -/
theorem selectActions_epsilon_extremes
    (legal : List Int) (batchSize : Nat) (draw : ℚ) (randIdx : Nat → Nat)
    (q : Nat → Int → ℚ) (i : Nat)
    (hdraw0 : 0 ≤ draw) (hdraw1 : draw < 1)
    (hlegal : legal ≠ []) (hi : i < batchSize) :
    (SelectActions legal batchSize 1 draw randIdx q).usedEngine = false ∧
    (SelectActions legal batchSize 0 draw randIdx q).usedEngine = true ∧
    ((SelectActions legal batchSize 0 draw randIdx q).actions.get? i =
      some (legal.getD
        (maxElemIdx (fun j => q i (legal.getD j 0)) legal.length) 0) ∧
     maxElemIdx (fun j => q i (legal.getD j 0)) legal.length < legal.length ∧
     (∀ j, j < legal.length →
        q i (legal.getD j 0) ≤
          q i (legal.getD
            (maxElemIdx (fun j => q i (legal.getD j 0)) legal.length) 0)) ∧
     (∀ j, j < maxElemIdx (fun j => q i (legal.getD j 0)) legal.length →
        q i (legal.getD j 0) <
          q i (legal.getD
            (maxElemIdx (fun j => q i (legal.getD j 0)) legal.length) 0))) := by
  have hlen : 1 ≤ legal.length := by
    cases legal with
    | nil => exact absurd rfl hlegal
    | cons a l => simp
  have hmax := maxElemIdx_spec (fun j => q i (legal.getD j 0)) legal.length hlen
  refine ⟨by simp [SelectActions, hdraw1], by simp [SelectActions, not_lt.mpr hdraw0], ?_, hmax.1, hmax.2.1, hmax.2.2⟩
  simp [SelectActions, not_lt.mpr hdraw0, SelectActionGreedilyBatch,
    List.get?_eq_getElem?, List.getElem?_map, List.getElem?_range hi]

/-- Witness for C6 at a concrete instance: two legal actions with a tie
broken toward the earlier list position. -/
theorem selectActions_epsilon_extremes_witness :
    ((0 : ℚ) ≤ 1/2 ∧ (1/2 : ℚ) < 1 ∧ ([3, 7] : List Int) ≠ [] ∧ 0 < 1) ∧
    ((SelectActions [3, 7] 1 1 (1/2) (fun _ => 0) (fun _ _ => 5)).usedEngine = false ∧
     (SelectActions [3, 7] 1 0 (1/2) (fun _ => 0) (fun _ _ => 5)).usedEngine = true ∧
     ((SelectActions [3, 7] 1 0 (1/2) (fun _ => 0) (fun _ _ => 5)).actions.get? 0 =
       some (([3, 7] : List Int).getD
         (maxElemIdx (fun j => (fun _ _ => (5 : ℚ)) 0 (([3, 7] : List Int).getD j 0))
           ([3, 7] : List Int).length) 0) ∧
      maxElemIdx (fun j => (fun _ _ => (5 : ℚ)) 0 (([3, 7] : List Int).getD j 0))
          ([3, 7] : List Int).length < ([3, 7] : List Int).length ∧
      (∀ j, j < ([3, 7] : List Int).length →
        (fun _ _ => (5 : ℚ)) 0 (([3, 7] : List Int).getD j 0) ≤
          (fun _ _ => (5 : ℚ)) 0 (([3, 7] : List Int).getD
            (maxElemIdx (fun j => (fun _ _ => (5 : ℚ)) 0 (([3, 7] : List Int).getD j 0))
              ([3, 7] : List Int).length) 0)) ∧
      (∀ j, j < maxElemIdx (fun j => (fun _ _ => (5 : ℚ)) 0 (([3, 7] : List Int).getD j 0))
          ([3, 7] : List Int).length →
        (fun _ _ => (5 : ℚ)) 0 (([3, 7] : List Int).getD j 0) <
          (fun _ _ => (5 : ℚ)) 0 (([3, 7] : List Int).getD
            (maxElemIdx (fun j => (fun _ _ => (5 : ℚ)) 0 (([3, 7] : List Int).getD j 0))
              ([3, 7] : List Int).length) 0)))) :=
  ⟨⟨by norm_num, by norm_num, by decide, by decide⟩,
   selectActions_epsilon_extremes [3, 7] 1 (1/2) (fun _ => 0) (fun _ _ => 5) 0
     (by norm_num) (by norm_num) (by decide) (by decide)⟩

theorem readLengths_mem (mem : List Episode) :
    ∀ (rest : List Tok),
      readLengths mem.length (mem.map (fun ep => Tok.int ep.length) ++ rest) =
        (mem.map List.length, rest, false) := by
  induction mem with
  | nil => intro rest; simp [readLengths]
  | cons ep eps ih => intro rest; simp [readLengths, readInt, ih]

theorem readTriples_exact :
    ∀ (ep : Episode) (rest : List Tok),
      readTriples ep.length
        (ep.bind (fun t => [Tok.frame t.frame, Tok.int t.action, Tok.flt t.reward]) ++ rest) =
        (ep.map (fun t => (t.frame, t.action, t.reward)), rest, false) := by
  intro ep
  induction ep with
  | nil => intro rest; simp [readTriples]
  | cons t ts ih =>
    intro rest
    have hlen : (t :: ts).length = ts.length + 1 := rfl
    simp [hlen, readTriples, readFrame, readInt, readFloat, List.cons_bind,
      List.append_assoc, ih]

theorem readEpisodes_exact :
    ∀ (mem : List Episode) (rest : List Tok),
      readEpisodes (mem.map List.length)
        (mem.bind (fun ep => ep.bind (fun t =>
          [Tok.frame t.frame, Tok.int t.action, Tok.flt t.reward])) ++ rest) =
        (mem.map (fun ep => wireNext (ep.map (fun t => (t.frame, t.action, t.reward)))),
          rest, false) := by
  intro mem
  induction mem with
  | nil => intro rest; simp [readEpisodes]
  | cons ep eps ih =>
    intro rest
    simp [readEpisodes, List.cons_bind, List.append_assoc, readTriples_exact, ih]

theorem wireNext_length : ∀ (l : List (Frame × Int × ℚ)),
    (wireNext l).length = l.length := by
  intro l
  induction l with
  | nil => rfl
  | cons p rest ih =>
    rcases p with ⟨f, a, r⟩
    simp [wireNext, ih]

theorem wireNext_frame : ∀ (l : List (Frame × Int × ℚ)),
    (wireNext l).map Transition.frame = l.map Prod.fst := by
  intro l
  induction l with
  | nil => rfl
  | cons p rest ih =>
    rcases p with ⟨f, a, r⟩
    simp [wireNext, ih]

theorem wireNext_action : ∀ (l : List (Frame × Int × ℚ)),
    (wireNext l).map Transition.action = l.map (fun p => p.2.1) := by
  intro l
  induction l with
  | nil => rfl
  | cons p rest ih =>
    rcases p with ⟨f, a, r⟩
    simp [wireNext, ih]

theorem wireNext_reward : ∀ (l : List (Frame × Int × ℚ)),
    (wireNext l).map Transition.reward = l.map (fun p => p.2.2) := by
  intro l
  induction l with
  | nil => rfl
  | cons p rest ih =>
    rcases p with ⟨f, a, r⟩
    simp [wireNext, ih]

theorem wireNext_next : ∀ (l : List (Frame × Int × ℚ)),
    (wireNext l).map Transition.next = specAdjacentNextLinks (l.map Prod.fst) := by
  intro l
  induction l with
  | nil => rfl
  | cons p rest ih =>
    rcases p with ⟨f, a, r⟩
    cases rest with
    | nil => simp [wireNext, specAdjacentNextLinks]
    | cons p2 rest2 =>
      rcases p2 with ⟨f2, a2, r2⟩
      simp only [wireNext, List.map_cons] at ih ⊢
      rw [ih]
      simp [specAdjacentNextLinks]

theorem load_snapshot_eq (mem : List Episode) :
    LoadReplayMemory (SnapshotReplayMemory mem) =
      { episodes := mem.map (fun ep =>
          wireNext (ep.map (fun t => (t.frame, t.action, t.reward)))),
        size := (mem.map List.length).sum,
        failed := false } := by
  have h2 := readLengths_mem mem
    (mem.bind (fun ep => ep.bind (fun t =>
      [Tok.frame t.frame, Tok.int t.action, Tok.flt t.reward])))
  have h3 := readEpisodes_exact mem ([] : List Tok)
  rw [List.append_nil] at h3
  simp [LoadReplayMemory, SnapshotReplayMemory, readInt, h2, h3]

/-- C4.  Round trip: `LoadReplayMemory` after `SnapshotReplayMemory` on a
non-empty replay memory succeeds (no read fails), and reproduces the
episode count, every episode length, and every transition's frame bytes,
action, and reward; the reconstructed next-frame links follow the
adjacency rule — the final transition of each episode has no next-frame
and every other transition's next-frame is the following transition's
current frame. -/
theorem snapshot_load_roundtrip (mem : List Episode) (hmem : mem ≠ []) :
    (LoadReplayMemory (SnapshotReplayMemory mem)).failed = false ∧
    (LoadReplayMemory (SnapshotReplayMemory mem)).episodes.length = mem.length ∧
    (LoadReplayMemory (SnapshotReplayMemory mem)).episodes.map List.length =
      mem.map List.length ∧
    (LoadReplayMemory (SnapshotReplayMemory mem)).episodes.map
        (List.map Transition.frame) =
      mem.map (List.map Transition.frame) ∧
    (LoadReplayMemory (SnapshotReplayMemory mem)).episodes.map
        (List.map Transition.action) =
      mem.map (List.map Transition.action) ∧
    (LoadReplayMemory (SnapshotReplayMemory mem)).episodes.map
        (List.map Transition.reward) =
      mem.map (List.map Transition.reward) ∧
    (LoadReplayMemory (SnapshotReplayMemory mem)).episodes.map
        (List.map Transition.next) =
      mem.map (fun ep => specAdjacentNextLinks (ep.map Transition.frame)) := by
  rw [load_snapshot_eq]
  refine ⟨rfl, by simp, ?_, ?_, ?_, ?_, ?_⟩
  · simp [wireNext_length]
  · simp [List.map_map, Function.comp, wireNext_frame]
  · simp [List.map_map, Function.comp, wireNext_action]
  · simp [List.map_map, Function.comp, wireNext_reward]
  · simp only [List.map_map]
    exact List.map_congr_left (fun a _ => by
      simp only [Function.comp_apply, wireNext_next, List.map_map]
      rfl)

/-- Witness for C4 at the concrete memory `sampleMemory`. -/
theorem snapshot_load_roundtrip_witness :
    (sampleMemory ≠ []) ∧
    ((LoadReplayMemory (SnapshotReplayMemory sampleMemory)).failed = false ∧
     (LoadReplayMemory (SnapshotReplayMemory sampleMemory)).episodes.length =
       sampleMemory.length ∧
     (LoadReplayMemory (SnapshotReplayMemory sampleMemory)).episodes.map List.length =
       sampleMemory.map List.length ∧
     (LoadReplayMemory (SnapshotReplayMemory sampleMemory)).episodes.map
         (List.map Transition.frame) =
       sampleMemory.map (List.map Transition.frame) ∧
     (LoadReplayMemory (SnapshotReplayMemory sampleMemory)).episodes.map
         (List.map Transition.action) =
       sampleMemory.map (List.map Transition.action) ∧
     (LoadReplayMemory (SnapshotReplayMemory sampleMemory)).episodes.map
         (List.map Transition.reward) =
       sampleMemory.map (List.map Transition.reward) ∧
     (LoadReplayMemory (SnapshotReplayMemory sampleMemory)).episodes.map
         (List.map Transition.next) =
       sampleMemory.map (fun ep => specAdjacentNextLinks (ep.map Transition.frame))) :=
  ⟨by decide, snapshot_load_roundtrip sampleMemory (by decide)⟩

theorem readTriples_truncated :
    ∀ (n : Nat), readTriples (n + 1) [] =
      (List.replicate (n + 1) (zeroFrame, 0, 0), [], true) := by
  intro n
  induction n with
  | zero => rfl
  | succ k ih =>
    have step : readTriples (k + 1 + 1) [] =
        ((zeroFrame, 0, 0) :: (readTriples (k + 1) []).1,
          (readTriples (k + 1) []).2.1,
          true || true || true || (readTriples (k + 1) []).2.2) := rfl
    rw [step, ih]
    simp [List.replicate_succ]

/-- C9 counterexample.  A truncated stream: the header announces one
episode of two transitions, then the stream ends.  `LoadReplayMemory`
returns through its one and only (normal) exit with a fully populated
result — an episode of two default-valued transitions and counter 2 —
while the stream's fail state (`failed = true`) is never inspected or
surfaced: the claim that a truncated stream produces an explicit error to
the caller is false on this input. -/
theorem load_truncated_silent :
    LoadReplayMemory [Tok.int 1, Tok.int 2] =
      { episodes := [[{ frame := zeroFrame, action := 0, reward := 0,
                        next := some zeroFrame },
                      { frame := zeroFrame, action := 0, reward := 0,
                        next := none }]],
        size := 2,
        failed := true } := by
  rfl

/-- C9 amended.  `LoadReplayMemory` performs no stream-state checking: on
a stream truncated right after a header announcing one episode of `n > 0`
transitions, it silently returns a memory of one episode of `n`
default-valued (zero-frame, action 0, reward 0) transitions with counter
`n`; the stream fail state is set internally but has no effect on the
returned reconstruction. -/
theorem load_truncated_behavior (n : Nat) (hn : 0 < n) :
    LoadReplayMemory [Tok.int 1, Tok.int n] =
      { episodes := [wireNext (List.replicate n (zeroFrame, 0, 0))],
        size := n, failed := true } := by
  obtain ⟨k, rfl⟩ : ∃ k, n = k + 1 := ⟨n - 1, by omega⟩
  simp [LoadReplayMemory, readInt, readLengths, readEpisodes, readTriples_truncated]

/-- Witness for the amended C9 statement at `n = 2`. -/
theorem load_truncated_behavior_witness :
    (0 < 2) ∧
    LoadReplayMemory [Tok.int 1, Tok.int 2] =
      { episodes := [wireNext (List.replicate 2 (zeroFrame, 0, 0))],
        size := 2, failed := true } :=
  ⟨by decide, load_truncated_behavior 2 (by decide)⟩

/-- C10.  `LoadReplayMemory` does not consult the replay-memory capacity
(the model takes no capacity argument, mirroring the source, which never
reads `replay_memory_capacity_`): after loading a snapshot of any memory
whose total transition count exceeds a capacity `cap`, every episode is
still present and the counter equals the full sum of the loaded episode
lengths, hence exceeds `cap` — no eviction has happened. -/
theorem load_ignores_capacity (mem : List Episode) (cap : Nat)
    (hover : cap < sumLens mem) :
    (LoadReplayMemory (SnapshotReplayMemory mem)).size = sumLens mem ∧
    (LoadReplayMemory (SnapshotReplayMemory mem)).episodes.length = mem.length ∧
    cap < (LoadReplayMemory (SnapshotReplayMemory mem)).size := by
  rw [load_snapshot_eq]
  exact ⟨rfl, by simp, hover⟩

/-- Witness for C10: loading two transitions into a capacity-1 memory. -/
theorem load_ignores_capacity_witness :
    (1 < sumLens sampleMemory) ∧
    ((LoadReplayMemory (SnapshotReplayMemory sampleMemory)).size = sumLens sampleMemory ∧
     (LoadReplayMemory (SnapshotReplayMemory sampleMemory)).episodes.length =
       sampleMemory.length ∧
     1 < (LoadReplayMemory (SnapshotReplayMemory sampleMemory)).size) :=
  ⟨by decide, load_ignores_capacity sampleMemory 1 (by decide)⟩

/-- C2 (divergence evidence).  The cont data `UpdateSequential` hands to
the training step never follows the claimed pattern (`specSeqContFlag`:
`0` exactly at global time-step 0, `1` at every later step).  With
unroll 2, minibatch 1, history window 1, on the first cycle
(`tBase = 0`):
* over a three-transition episode the clone evaluation at `t = 1`
  overwrites the shared staging buffer with ones, so the entry for
  unroll position 0 — global time-step 0 — reaches the training step as
  `1` where the claim requires `0` (hidden state is not reset at the
  episode start);
* over a two-transition episode no clone evaluation survives the
  warm-up (the deque is cleared at the terminal step), the cycle-top
  zero-fill reaches the training step, and the entry for unroll
  position 1 — global time-step 1 — is `0` where the claim requires
  `1`. -/
theorem seqContInput_diverges_from_spec :
    (seqContInputAtTrainStep 1 2 1 0 [wEpisode3] [[]] = [1, 1] ∧
     specSeqContFlag 0 0 = 0 ∧
     (seqContInputAtTrainStep 1 2 1 0 [wEpisode3] [[]]).getD (0 * 1 + 0) 0 ≠
       specSeqContFlag 0 0) ∧
    (seqContInputAtTrainStep 1 2 1 0 [wEpisode] [[]] = [0, 0] ∧
     specSeqContFlag 0 1 = 1 ∧
     (seqContInputAtTrainStep 1 2 1 0 [wEpisode] [[]]).getD (1 * 1 + 0) 0 ≠
       specSeqContFlag 0 1) := by
  decide

set_option maxHeartbeats 4000000 in
set_option maxRecDepth 4000 in
/-- C7 (divergence evidence).  On the uniform raw screen of NTSC pixel 4
(palette entry 0x6f6f6f, grayscale value 111) at the standard 160 × 210
geometry, the `uint8_t` accumulator of `PreprocessScreen` truncates the
running sum after every partial addition: destination pixel (0,0)
evaluates to 107 and (0,1) to 105 — neither equals the color's grayscale
value 111, and they differ from each other, so the output frame is
neither uniform at the grayscale value nor the exact coverage-weighted
average (which would give 111 at every destination pixel). -/
theorem preprocess_uniform_screen_bug :
    PixelToGrayscale 4 = 111 ∧
    PreprocessPixel (fun _ _ => 4) 160 210 0 0 = 107 ∧
    PreprocessPixel (fun _ _ => 4) 160 210 0 1 = 105 ∧
    PreprocessPixel (fun _ _ => 4) 160 210 0 0 ≠ PixelToGrayscale 4 := by
  have htab : ntscToRgbTable.getD 4 0 = 7303023 := rfl
  have htab2 : ntscToRgbTable[4]?.getD 0 = 7303023 := rfl
  have hg : PixelToGrayscale 4 = 111 := by
    simp only [PixelToGrayscale, PixelToRGB, RGBToGrayscale, htab]
    norm_num
    all_goals decide
  have h00 : PreprocessPixel (fun _ _ => 4) 160 210 0 0 = 107 := by
    unfold PreprocessPixel
    norm_num [htab, List.range_succ, PixelToGrayscale, PixelToRGB, RGBToGrayscale]
    simp only [htab2, Int.reduceToNat]
    norm_num [List.range_succ]
    repeat (simp only [Int.reduceToNat]; norm_num [List.range_succ])
    all_goals decide
  have h01 : PreprocessPixel (fun _ _ => 4) 160 210 0 1 = 105 := by
    unfold PreprocessPixel
    norm_num [htab, List.range_succ, PixelToGrayscale, PixelToRGB, RGBToGrayscale]
    simp only [htab2, Int.reduceToNat]
    norm_num [List.range_succ]
    repeat (simp only [Int.reduceToNat]; norm_num [List.range_succ])
    all_goals decide
  refine ⟨hg, h00, h01, ?_⟩
  rw [h00, hg]
  decide

/-- C8 counterexample.  An episode of length 1 with history window 4 and
unroll 10 is too short for a full history-plus-unroll window, yet
`UpdateRandom` performs no validation: it computes the negative sampler
bound `-12` and still draws a start offset from the sampler oracle on the
normal path (`uniform_int_distribution(0, -12)` — a violated
precondition, i.e. undefined behavior, not a signalled "no eligible
episode" condition). -/
theorem updateRandom_no_length_validation :
    lastValidFrame 1 4 10 = -12 ∧
    lastValidFrame 1 4 10 < 0 ∧
    updateRandomEpStarts [1] 4 10 (fun _ => 0) = [0] := by
  decide

/-- C8 amended.  `UpdateRandom` does not validate episode lengths before
sampling: for every selected episode it unconditionally draws a start
offset from the bound `ep_size - 1 - (fpt - 1) - (unroll - 1)`, and that
bound is negative — an empty, precondition-violating sampler range in
place of any "no eligible episode" signal — exactly when the episode is
shorter than `fpt + unroll - 1` transitions. -/
theorem lastValidFrame_negative_iff (epSize fpt unroll : Nat) (draw : Int → Int) :
    (lastValidFrame epSize fpt unroll < 0 ↔
      (epSize : Int) + 1 < (fpt : Int) + (unroll : Int)) ∧
    updateRandomEpStarts [epSize] fpt unroll draw =
      [draw (lastValidFrame epSize fpt unroll)] := by
  constructor
  · unfold lastValidFrame
    omega
  · rfl

theorem head?_eq_get0 (l : List ℚ) : l.head? = l[0]? := by
  cases l <;> simp

theorem tail_getD (l : List ℚ) (c : Nat) : l.tail.getD c 0 = l.getD (c + 1) 0 := by
  cases l <;> rfl

theorem randFillTargets_get (gamma : ℚ) (u fpt : Nat) :
    ∀ (pairs : List (Episode × Nat)) (vals : List ℚ) (n : Nat), n < pairs.length →
      (randFillTargets gamma u fpt pairs vals).get? n =
        some (targetFor gamma
          (transAt (pairs.getD n pairDefaultR).1
            ((pairs.getD n pairDefaultR).2 + u + (fpt - 1)))
          (vals.getD ((pairs.take n).countP (randPresent u fpt)) 0)) := by
  intro pairs
  induction pairs with
  | nil => intro vals n hn; simp at hn
  | cons p rest ih =>
    intro vals n hn
    cases n with
    | zero =>
      by_cases hp : randPresent u fpt p = true
      · have hs : (transAt p.1 (p.2 + u + (fpt - 1))).next.isSome = true := by
          simpa [randPresent] using hp
        simp [randFillTargets, targetFor, hp, hs, head?_eq_get0]
      · have hs : (transAt p.1 (p.2 + u + (fpt - 1))).next.isSome = false := by
          simpa [randPresent] using hp
        simp [randFillTargets, targetFor, hp, hs]
    | succ m =>
      have hm : m < rest.length := by simpa using Nat.lt_of_succ_lt_succ hn
      rw [List.getD_cons_succ, List.take_succ_cons, List.countP_cons]
      by_cases hp : randPresent u fpt p = true
      · rw [show (randFillTargets gamma u fpt (p :: rest) vals).get? (m + 1) =
            (randFillTargets gamma u fpt rest vals.tail).get? m from by
          simp [randFillTargets, hp]]
        rw [ih vals.tail m hm, tail_getD]
        simp [hp]
      · rw [show (randFillTargets gamma u fpt (p :: rest) vals).get? (m + 1) =
            (randFillTargets gamma u fpt rest vals).get? m from by
          simp [randFillTargets, hp]]
        rw [ih vals m hm]
        simp [hp]

theorem randCollectWindows_get (u fpt : Nat) :
    ∀ (pairs : List (Episode × Nat)) (n : Nat), n < pairs.length →
      randPresent u fpt (pairs.getD n pairDefaultR) = true →
      (randCollectWindows u fpt pairs).get?
          ((pairs.take n).countP (randPresent u fpt)) =
        some (randNextWindow (pairs.getD n pairDefaultR).1
          (pairs.getD n pairDefaultR).2 u fpt) := by
  intro pairs
  induction pairs with
  | nil => intro n hn; simp at hn
  | cons p rest ih =>
    intro n hn hpres
    cases n with
    | zero =>
      simp only [List.getD_cons_zero] at hpres
      simp [randCollectWindows, List.filterMap_cons, hpres]
    | succ m =>
      have hm : m < rest.length := by simpa using Nat.lt_of_succ_lt_succ hn
      simp only [List.getD_cons_succ] at hpres
      rw [List.getD_cons_succ, List.take_succ_cons, List.countP_cons]
      by_cases hp : randPresent u fpt p = true
      · rw [show randCollectWindows u fpt (p :: rest) =
            randNextWindow p.1 p.2 u fpt :: randCollectWindows u fpt rest from by
          simp [randCollectWindows, List.filterMap_cons, hp]]
        simp only [hp, if_true]
        rw [List.get?_cons_succ]
        exact ih m hm hpres
      · rw [show randCollectWindows u fpt (p :: rest) =
            randCollectWindows u fpt rest from by
          simp [randCollectWindows, List.filterMap_cons, hp]]
        simpa [hp] using ih m hm hpres

theorem seqFillTargets_get (gamma : ℚ) (t : Nat) :
    ∀ (eps : List Episode) (vals : List ℚ) (n : Nat), n < eps.length →
      (seqFillTargets gamma t eps vals).get? n =
        some (((eps.getD n []).get? t).map (fun tr =>
          targetFor gamma tr
            (vals.getD ((eps.take n).countP (seqConsumes t)) 0))) := by
  intro eps
  induction eps with
  | nil => intro vals n hn; simp at hn
  | cons ep rest ih =>
    intro vals n hn
    cases n with
    | zero =>
      cases hget : List.get? ep t with
      | none =>
        rw [List.get?_eq_getElem?] at hget
        simp [seqFillTargets, List.get?_eq_getElem?, hget]
      | some tr =>
        rw [List.get?_eq_getElem?] at hget
        by_cases hp : tr.next.isSome
        · simp [seqFillTargets, List.get?_eq_getElem?, hget, hp, targetFor,
            head?_eq_get0]
        · simp only [Bool.not_eq_true] at hp
          simp [seqFillTargets, List.get?_eq_getElem?, hget, hp, targetFor]
    | succ m =>
      have hm : m < rest.length := by simpa using Nat.lt_of_succ_lt_succ hn
      rw [List.getD_cons_succ, List.take_succ_cons, List.countP_cons]
      cases hget : List.get? ep t with
      | none =>
        rw [List.get?_eq_getElem?] at hget
        have hc : seqConsumes t ep = false := by
          simp [seqConsumes, List.get?_eq_getElem?, hget]
        rw [show (seqFillTargets gamma t (ep :: rest) vals).get? (m + 1) =
            (seqFillTargets gamma t rest vals).get? m from by
          simp [seqFillTargets, List.get?_eq_getElem?, hget]]
        rw [ih vals m hm]
        simp [hc]
      | some tr =>
        rw [List.get?_eq_getElem?] at hget
        by_cases hp : tr.next.isSome
        · have hc : seqConsumes t ep = true := by
            simp [seqConsumes, List.get?_eq_getElem?, hget, hp]
          rw [show (seqFillTargets gamma t (ep :: rest) vals).get? (m + 1) =
              (seqFillTargets gamma t rest vals.tail).get? m from by
            simp [seqFillTargets, List.get?_eq_getElem?, hget, hp]]
          rw [ih vals.tail m hm, tail_getD]
          simp [hc]
        · simp only [Bool.not_eq_true] at hp
          have hc : seqConsumes t ep = false := by
            simp [seqConsumes, List.get?_eq_getElem?, hget, hp]
          rw [show (seqFillTargets gamma t (ep :: rest) vals).get? (m + 1) =
              (seqFillTargets gamma t rest vals).get? m from by
            simp [seqFillTargets, List.get?_eq_getElem?, hget, hp]]
          rw [ih vals m hm]
          simp [hc]

theorem seqCollectWindows_get (fpt t : Nat) :
    ∀ (pairs : List (Episode × List Frame)) (n : Nat), n < pairs.length →
      seqPresent fpt t (pairs.getD n pairDefaultS) = true →
      (seqCollectWindows fpt t pairs).get?
          ((pairs.take n).countP (seqPresent fpt t)) =
        some (stepDeque fpt (pairs.getD n pairDefaultS).1 t
          (pairs.getD n pairDefaultS).2) := by
  intro pairs
  induction pairs with
  | nil => intro n hn; simp at hn
  | cons p rest ih =>
    intro n hn hpres
    cases n with
    | zero =>
      simp only [List.getD_cons_zero] at hpres
      simp [seqCollectWindows, List.filterMap_cons, hpres]
    | succ m =>
      have hm : m < rest.length := by simpa using Nat.lt_of_succ_lt_succ hn
      simp only [List.getD_cons_succ] at hpres
      rw [List.getD_cons_succ, List.take_succ_cons, List.countP_cons]
      by_cases hp : seqPresent fpt t p = true
      · rw [show seqCollectWindows fpt t (p :: rest) =
            stepDeque fpt p.1 t p.2 :: seqCollectWindows fpt t rest from by
          simp [seqCollectWindows, List.filterMap_cons, hp]]
        simp only [hp, if_true]
        rw [List.get?_cons_succ]
        exact ih m hm hpres
      · rw [show seqCollectWindows fpt t (p :: rest) =
            seqCollectWindows fpt t rest from by
          simp [seqCollectWindows, List.filterMap_cons, hp]]
        simpa [hp] using ih m hm hpres

theorem seqPresent_eq_consumes (fpt t : Nat) (hfpt : 1 ≤ fpt)
    (p : Episode × List Frame) :
    seqPresent fpt t p = seqConsumes t p.1 := by
  unfold seqPresent stepDeque seqConsumes
  cases hget : p.1.get? t with
  | none => rfl
  | some tr =>
    cases hnext : tr.next with
    | none => simp [hnext]
    | some f =>
      have hlen : ((p.2 ++ [f]).drop ((p.2 ++ [f]).length - fpt)).length =
          (p.2 ++ [f]).length - ((p.2 ++ [f]).length - fpt) :=
        List.length_drop _ _
      have hpos : 0 < ((p.2 ++ [f]).drop ((p.2 ++ [f]).length - fpt)).length := by
        rw [hlen]
        simp only [List.length_append, List.length_cons, List.length_nil]
        omega
      cases hdl : (p.2 ++ [f]).drop ((p.2 ++ [f]).length - fpt) with
      | nil => rw [hdl] at hpos; simp at hpos
      | cons a l =>
        simp [hnext, hdl, hget]
        omega

theorem getD_map_fst (pairs : List (Episode × List Frame)) :
    ∀ (n : Nat), n < pairs.length →
      (pairs.map Prod.fst).getD n [] = (pairs.getD n pairDefaultS).1 := by
  induction pairs with
  | nil => intro n hn; simp at hn
  | cons p rest ih =>
    intro n hn
    cases n with
    | zero => rfl
    | succ m =>
      have hm : m < rest.length := by simpa using Nat.lt_of_succ_lt_succ hn
      simpa using ih m hm

theorem countP_present_eq_consumes (fpt t : Nat) (hfpt : 1 ≤ fpt)
    (pairs : List (Episode × List Frame)) (n : Nat) :
    ((pairs.map Prod.fst).take n).countP (seqConsumes t) =
      (pairs.take n).countP (seqPresent fpt t) := by
  rw [← List.map_take, List.countP_map]
  refine List.countP_congr ?_
  intro p hp
  simp [Function.comp, seqPresent_eq_consumes fpt t hfpt p]

/-- C3.  In both update algorithms, the training target assigned to a
slot is exactly the shared rule `targetFor`: for a terminal transition
with reward `r` it is `r`, and for a non-terminal transition it is
`r + gamma * q` where `q` is the clone Q-value the batched evaluation
returned for that slot — the value at position
"number of non-terminal slots before this one" of the oracle's output,
which (per the second and fourth conjuncts) is exactly the position at
which that slot's own next-state window was handed to the clone.  For
`UpdateSequential`, slots whose episode is exhausted at time `t` receive
no target (`none`). -/
theorem training_target_terminal_bootstrap
    (gamma : ℚ) (u fpt t : Nat)
    (rpairs : List (Episode × Nat)) (spairs : List (Episode × List Frame))
    (evalBatch : List (List Frame) → List ℚ) (n : Nat)
    (hfpt : 1 ≤ fpt) (hnr : n < rpairs.length) (hns : n < spairs.length) :
    ((updateRandomStepTargets gamma u fpt rpairs evalBatch).get? n =
      some (targetFor gamma
        (transAt (rpairs.getD n pairDefaultR).1
          ((rpairs.getD n pairDefaultR).2 + u + (fpt - 1)))
        ((evalBatch (randCollectWindows u fpt rpairs)).getD
          ((rpairs.take n).countP (randPresent u fpt)) 0))) ∧
    (randPresent u fpt (rpairs.getD n pairDefaultR) = true →
      (randCollectWindows u fpt rpairs).get?
          ((rpairs.take n).countP (randPresent u fpt)) =
        some (randNextWindow (rpairs.getD n pairDefaultR).1
          (rpairs.getD n pairDefaultR).2 u fpt)) ∧
    ((updateSequentialStepTargets gamma fpt t spairs evalBatch).get? n =
      some (((spairs.getD n pairDefaultS).1.get? t).map (fun tr =>
        targetFor gamma tr
          ((evalBatch (seqCollectWindows fpt t spairs)).getD
            ((spairs.take n).countP (seqPresent fpt t)) 0)))) ∧
    (seqPresent fpt t (spairs.getD n pairDefaultS) = true →
      (seqCollectWindows fpt t spairs).get?
          ((spairs.take n).countP (seqPresent fpt t)) =
        some (stepDeque fpt (spairs.getD n pairDefaultS).1 t
          (spairs.getD n pairDefaultS).2)) := by
  refine ⟨?_, ?_, ?_, ?_⟩
  · exact randFillTargets_get gamma u fpt rpairs _ n hnr
  · exact randCollectWindows_get u fpt rpairs n hnr
  · have hlen : n < (spairs.map Prod.fst).length := by simpa using hns
    have h := seqFillTargets_get gamma t (spairs.map Prod.fst)
      (evalBatch (seqCollectWindows fpt t spairs)) n hlen
    unfold updateSequentialStepTargets
    rw [h, getD_map_fst spairs n hns,
      countP_present_eq_consumes fpt t hfpt spairs n]
  · exact seqCollectWindows_get fpt t spairs n hns

/-- Witness for C3 at a concrete instance: one slot holding `wEpisode`
(non-terminal then terminal transition), history window 1, unroll
position 0 / cycle time 0, discount 1/2, and the constant-2 evaluation
oracle. -/
theorem training_target_terminal_bootstrap_witness :
    (1 ≤ 1 ∧ 0 < [(wEpisode, 0)].length ∧ 0 < [(wEpisode, ([] : List Frame))].length) ∧
    (((updateRandomStepTargets (1/2) 0 1 [(wEpisode, 0)] wEval).get? 0 =
      some (targetFor (1/2)
        (transAt ([(wEpisode, 0)].getD 0 pairDefaultR).1
          (([(wEpisode, 0)].getD 0 pairDefaultR).2 + 0 + (1 - 1)))
        ((wEval (randCollectWindows 0 1 [(wEpisode, 0)])).getD
          (([(wEpisode, 0)].take 0).countP (randPresent 0 1)) 0))) ∧
    (randPresent 0 1 ([(wEpisode, 0)].getD 0 pairDefaultR) = true →
      (randCollectWindows 0 1 [(wEpisode, 0)]).get?
          (([(wEpisode, 0)].take 0).countP (randPresent 0 1)) =
        some (randNextWindow ([(wEpisode, 0)].getD 0 pairDefaultR).1
          ([(wEpisode, 0)].getD 0 pairDefaultR).2 0 1)) ∧
    ((updateSequentialStepTargets (1/2) 1 0 [(wEpisode, ([] : List Frame))] wEval).get? 0 =
      some ((([(wEpisode, ([] : List Frame))].getD 0 pairDefaultS).1.get? 0).map (fun tr =>
        targetFor (1/2) tr
          ((wEval (seqCollectWindows 1 0 [(wEpisode, ([] : List Frame))])).getD
            (([(wEpisode, ([] : List Frame))].take 0).countP (seqPresent 1 0)) 0)))) ∧
    (seqPresent 1 0 ([(wEpisode, ([] : List Frame))].getD 0 pairDefaultS) = true →
      (seqCollectWindows 1 0 [(wEpisode, ([] : List Frame))]).get?
          (([(wEpisode, ([] : List Frame))].take 0).countP (seqPresent 1 0)) =
        some (stepDeque 1 ([(wEpisode, ([] : List Frame))].getD 0 pairDefaultS).1 0
          ([(wEpisode, ([] : List Frame))].getD 0 pairDefaultS).2))) :=
  ⟨⟨by decide, by decide, by decide⟩,
   training_target_terminal_bootstrap (1/2) 0 1 0 [(wEpisode, 0)]
     [(wEpisode, ([] : List Frame))] wEval 0 (by decide) (by decide) (by decide)⟩

end DqnSpec
